import Mathlib

/-!
Verification of the extism instance pool and byte-conversion modules.

The byte-conversion utility is embedded from `src/convert/src/to_bytes.rs`.
The pool (`Pool`, `PoolBuilder`, `KeySlot`) has no implementation under
`src/`; only its test `src/runtime/src/tests/pool.rs` is present, so the
pool is modelled from the spec, with the registration surface taken from
the test's calls (`PoolBuilder::new().with_max_instances(i).build()`,
`pool.add_builder(key, builder)`, `pool.get(key, timeout)`, `pool.count(key)`).
-/

namespace Extism

/-- Conversion errors (`extism_convert::Error` wraps a message). -/
def Error := String

/-- Little-endian byte encoding of a natural number into `w` bytes;
models Rust's `to_le_bytes` on a `w`-byte integer value (for signed and
floating-point types, applied to the two's-complement / IEEE bit pattern). -/
def toLEBytes : Nat → Nat → List Nat
  | 0, _ => []
  | w + 1, n => n % 256 :: toLEBytes w (n / 256)

/-- Little-endian byte decoding; models Rust's `from_le_bytes`. -/
def fromLEBytes : List Nat → Nat
  | [] => 0
  | b :: rest => b + 256 * fromLEBytes rest

/-- UTF-8 bytes of a string; models Rust's `String::into_bytes` /
`str::as_bytes` (the byte content of a `String`). -/
def utf8Bytes (s : String) : List Nat :=
  s.toUTF8.toList.map (fun b => b.toNat)

/-- The values of the types given a `ToBytes` impl in
`src/convert/src/to_bytes.rs`: `()`, `Vec<u8>` / `&[u8]`, `String` / `&str`,
the fixed-width scalars, and `Option<T>` (`optNone` is `None`, `optSome v`
is `Some(v)`).  Floating-point values are carried as their IEEE-754 bit
patterns (`f32::to_le_bytes` is the little-endian encoding of
`f32::to_bits`). -/
inductive Value where
  | unit : Value
  | bytes : List Nat → Value
  | text : String → Value
  | u32 : Nat → Value
  | u64 : Nat → Value
  | i32 : Int → Value
  | i64 : Int → Value
  | f32 : Nat → Value
  | f64 : Nat → Value
  | optNone : Value
  | optSome : Value → Value
deriving DecidableEq

/-- `ToBytes::to_bytes` from `src/convert/src/to_bytes.rs`, one match arm per
impl, with each `Self::Bytes` representation taken to its byte content:
`()` gives `[]`; `Vec<u8>` / `&[u8]` clone themselves; `String` / `&str`
give their UTF-8 bytes; scalars give their little-endian bytes;
`Option`: `None` gives `vec![]`, `Some(x)` gives `x.to_bytes()` as a vector. -/
def toBytes : Value → Except Error (List Nat)
  | .unit => .ok []
  | .bytes bs => .ok bs
  | .text s => .ok (utf8Bytes s)
  | .u32 n => .ok (toLEBytes 4 (n % 2 ^ 32))
  | .u64 n => .ok (toLEBytes 8 (n % 2 ^ 64))
  | .i32 n => .ok (toLEBytes 4 (n % (2 ^ 32 : Int)).toNat)
  | .i64 n => .ok (toLEBytes 8 (n % (2 ^ 64 : Int)).toNat)
  | .f32 bits => .ok (toLEBytes 4 (bits % 2 ^ 32))
  | .f64 bits => .ok (toLEBytes 8 (bits % 2 ^ 64))
  | .optNone => .ok []
  | .optSome v => toBytes v

/-- `ToBytes::to_vec` from `src/convert/src/to_bytes.rs`, with the
specialized overrides: `Vec<u8>` returns `self.clone()`; `String` returns
`self.to_bytes().map(|x| x.into_bytes())`; `Option`: `None` returns
`vec![]` and `Some(x)` returns `T::to_vec(x)`; every other impl uses the
trait's default body `self.to_bytes().map(|x| x.as_ref().to_vec())`. -/
def toVec : Value → Except Error (List Nat)
  | .bytes bs => .ok bs
  | .text s => (toBytes (.text s)).map (fun bs => bs)
  | .optNone => .ok []
  | .optSome v => toVec v
  | v => (toBytes v).map (fun bs => bs)

/-- The default body of `ToBytes::to_vec`:
`self.to_bytes().map(|x| x.as_ref().to_vec())` (on byte content,
`as_ref().to_vec()` is the identity). -/
def toVecDefault (v : Value) : Except Error (List Nat) :=
  (toBytes v).map (fun bs => bs)

/-- One run of the encoder over a sequence of values: each call is
`to_bytes` on that value. -/
def encodeAll (vs : List Value) : List (Except Error (List Nat)) :=
  vs.map toBytes

/-- Two's-complement reading of a `w`-bit pattern as a signed integer;
models Rust's `iN::from_le_bytes` applied to the decoded bit pattern. -/
def fromTwos (w : Nat) (v : Nat) : Int :=
  if v < 2 ^ (w - 1) then (v : Int) else (v : Int) - 2 ^ w

/-- Modelled from the spec: the decoder side (`FromBytes`) is not under
`src/`; the spec fixes unsigned integers to little-endian width 32 bits, so
the `u32` decoder reads exactly 4 little-endian bytes. -/
def fromBytesU32 (bs : List Nat) : Except Error Nat :=
  if bs.length = 4 then .ok (fromLEBytes bs) else .error "expected 4 bytes"

/-- Modelled from the spec: `u64` decoder, little-endian width 64 bits. -/
def fromBytesU64 (bs : List Nat) : Except Error Nat :=
  if bs.length = 8 then .ok (fromLEBytes bs) else .error "expected 8 bytes"

/-- Modelled from the spec: `i32` decoder, little-endian two's-complement
width 32 bits. -/
def fromBytesI32 (bs : List Nat) : Except Error Int :=
  if bs.length = 4 then .ok (fromTwos 32 (fromLEBytes bs)) else .error "expected 4 bytes"

/-- Modelled from the spec: `i64` decoder, little-endian two's-complement
width 64 bits. -/
def fromBytesI64 (bs : List Nat) : Except Error Int :=
  if bs.length = 8 then .ok (fromTwos 64 (fromLEBytes bs)) else .error "expected 8 bytes"

/-- Modelled from the spec: `f32` decoder, little-endian width 32 bits,
recovering the IEEE-754 bit pattern (`f32::from_le_bytes` is bit-for-bit). -/
def fromBytesF32 (bs : List Nat) : Except Error Nat :=
  if bs.length = 4 then .ok (fromLEBytes bs) else .error "expected 4 bytes"

/-- Modelled from the spec: `f64` decoder, little-endian width 64 bits. -/
def fromBytesF64 (bs : List Nat) : Except Error Nat :=
  if bs.length = 8 then .ok (fromLEBytes bs) else .error "expected 8 bytes"

/-- Modelled from the spec: the `optional<T>` decoder reads the empty byte
sequence as absent and delegates non-empty input to `T`'s decoder. -/
def fromBytesOpt {α : Type} (dec : List Nat → Except Error α) (bs : List Nat) :
    Except Error (Option α) :=
  if bs.isEmpty then .ok none else (dec bs).map some

/-- Modelled from the spec: per-key bookkeeping of a `KeySlot` — the
capacity bound, the number of idle instances, and the total number of
instances created under the key (idle + checked out).  The opaque instances
and the factory itself are abstracted to counts; a factory invocation's
outcome is an input of each `acquire` step. -/
structure KeySlot where
  maxInstances : Nat
  available : Nat
  liveCount : Nat
deriving DecidableEq

/-- Modelled from the spec: the pool's error kinds — `UnknownKey` for an
unregistered key and `CreationFailed` for a factory failure. -/
inductive PoolError where
  | unknownKey
  | creationFailed
deriving DecidableEq

/-- Modelled from the test's construction surface
(`PoolBuilder::new().with_max_instances(i).build()`): the builder carries
the pool-wide instance bound. -/
structure PoolBuilder where
  maxInstances : Nat
deriving DecidableEq

/-- Modelled from the spec: the pool's shared state — the configured bound
and the registry mapping keys to slots.  Cloned pool handles share this
state, so one state models all handles. -/
structure PoolState where
  defaultMax : Nat
  slots : String → Option KeySlot

/-- `PoolBuilder::with_max_instances`: sets the pool-wide bound. -/
def PoolBuilder.withMaxInstances (_ : PoolBuilder) (m : Nat) : PoolBuilder :=
  { maxInstances := m }

/-- `PoolBuilder::build`: a fresh pool with no registered keys. -/
def PoolBuilder.build (b : PoolBuilder) : PoolState :=
  { defaultMax := b.maxInstances, slots := fun _ => none }

/-- Write one key's slot in the registry, leaving every other key alone
(the per-key critical section touches only its own slot). -/
def setSlot (s : PoolState) (key : String) (slot : KeySlot) : PoolState :=
  { s with slots := fun k' => if k' = key then some slot else s.slots k' }

/-- Modelled from the spec and the test's `pool.add_builder(key, builder)`:
registration installs a `KeySlot` for the key whose capacity is the pool's
configured bound; re-registering an existing key replaces its
configuration but keeps the slot's accounting (checked-out instances still
return to it). -/
def PoolState.addBuilder (s : PoolState) (k : String) : PoolState :=
  match s.slots k with
  | none => setSlot s k { maxInstances := s.defaultMax, available := 0, liveCount := 0 }
  | some slot => setSlot s k { slot with maxInstances := s.defaultMax }

/-- Modelled from the spec: one atomic `acquire(key, timeout)` step
(`Pool::get` in the test).  Unknown key fails with `UnknownKey`; an idle
instance is checked out immediately; under capacity the factory runs
(`factoryOk` is its outcome) and on success `live_count` is incremented
atomically with the capacity check; at capacity with none idle the caller
waits out the timeout and gets `Ok(None)` — a release arriving first is a
separate earlier step. -/
def PoolState.acquire (s : PoolState) (k : String) (factoryOk : Bool) :
    Except PoolError (Option Unit) × PoolState :=
  match s.slots k with
  | none => (.error .unknownKey, s)
  | some slot =>
    if 0 < slot.available then
      (.ok (some ()), setSlot s k { slot with available := slot.available - 1 })
    else if slot.liveCount < slot.maxInstances then
      if factoryOk then
        (.ok (some ()), setSlot s k { slot with liveCount := slot.liveCount + 1 })
      else (.error .creationFailed, s)
    else
      (.ok none, s)

/-- Modelled from the spec: returning a checkout handle puts the instance
back into `available` and leaves `live_count` unchanged; it only applies
when an instance is actually checked out (`available < live_count`). -/
def PoolState.release (s : PoolState) (k : String) : PoolState :=
  match s.slots k with
  | none => s
  | some slot =>
    if slot.available < slot.liveCount then
      setSlot s k { slot with available := slot.available + 1 }
    else s

/-- Modelled from the spec: `count(key)` returns the key's current
`live_count`, silently 0 for an unknown key. -/
def PoolState.count (s : PoolState) (k : String) : Nat :=
  match s.slots k with
  | none => 0
  | some slot => slot.liveCount

/-- Modelled from the spec: capacity currently configured for a key. -/
def PoolState.capacity (s : PoolState) (k : String) : Option Nat :=
  (s.slots k).map (fun slot => slot.maxInstances)

/-- One pool operation of a history: registration, an acquisition attempt
(with the factory outcome it would observe), a handle release, or a count
query. -/
inductive Op where
  | addBuilder (k : String)
  | acquire (k : String) (factoryOk : Bool)
  | release (k : String)
  | count (k : String)
deriving DecidableEq

/-- State transition of one operation; `count` is read-only. -/
def step (s : PoolState) : Op → PoolState
  | .addBuilder k => s.addBuilder k
  | .acquire k factoryOk => (s.acquire k factoryOk).2
  | .release k => s.release k
  | .count _ => s

/-- Run a history of operations (an arbitrary interleaving of the atomic
critical sections of concurrent callers). -/
def run (s : PoolState) (ops : List Op) : PoolState :=
  ops.foldl step s

/-- The per-key slot invariant for a key registered while the pool-wide
bound was `m`: the slot exists, keeps capacity `m`, and its counts satisfy
`available ≤ live_count ≤ m`. -/
def SlotInv (m : Nat) (o : Option KeySlot) : Prop :=
  ∃ slot, o = some slot ∧ slot.maxInstances = m ∧
    slot.available ≤ slot.liveCount ∧ slot.liveCount ≤ m

/-- A pool whose single key ("k", capacity 1) is at capacity with no idle
instance: the state a blocked acquirer observes until its timeout elapses. -/
def sAtCap : PoolState :=
  { defaultMax := 1, slots := fun k => if k = "k" then some ⟨1, 0, 1⟩ else none }

/-- The test scenario's history for one pool: 12 acquisitions against key
"test", with the releases of finished callers interleaved. -/
def ops12 : List Op :=
  [.acquire "test" true, .acquire "test" true, .acquire "test" true,
   .release "test", .acquire "test" true, .acquire "test" true,
   .release "test", .release "test", .acquire "test" true,
   .acquire "test" true, .acquire "test" true, .release "test",
   .acquire "test" true, .release "test", .release "test",
   .acquire "test" true, .acquire "test" true, .release "test",
   .acquire "test" true, .count "test"]

theorem toLEBytes_length : ∀ (w n : Nat), (toLEBytes w n).length = w
  | 0, _ => rfl
  | w + 1, n => by
    simp [toLEBytes, toLEBytes_length w (n / 256)]

theorem fromLEBytes_toLEBytes : ∀ (w n : Nat), fromLEBytes (toLEBytes w n) = n % 256 ^ w
  | 0, n => by simp [toLEBytes, fromLEBytes, Nat.mod_one]
  | w + 1, n => by
    rw [toLEBytes, fromLEBytes, fromLEBytes_toLEBytes w (n / 256), pow_succ,
      mul_comm (256 ^ w) 256, Nat.mod_mul]

theorem fromLE_toLE_of_lt {w n : Nat} (h : n < 256 ^ w) :
    fromLEBytes (toLEBytes w n) = n := by
  rw [fromLEBytes_toLEBytes, Nat.mod_eq_of_lt h]

theorem fromTwos_32 (c : Int) (h1 : -(2 ^ 31) ≤ c) (h2 : c < 2 ^ 31) :
    fromTwos 32 ((c % (2 ^ 32 : Int)).toNat) = c := by
  simp only [fromTwos]
  norm_num
  split <;> omega

theorem fromTwos_64 (d : Int) (h1 : -(2 ^ 63) ≤ d) (h2 : d < 2 ^ 63) :
    fromTwos 64 ((d % (2 ^ 64 : Int)).toNat) = d := by
  simp only [fromTwos]
  norm_num
  split <;> omega

theorem emod_toNat_lt_32 (c : Int) : (c % (2 ^ 32 : Int)).toNat < 2 ^ 32 := by
  omega

theorem emod_toNat_lt_64 (d : Int) : (d % (2 ^ 64 : Int)).toNat < 2 ^ 64 := by
  omega

theorem exceptMap_id (e : Except Error (List Nat)) : e.map (fun bs => bs) = e := by
  cases e <;> rfl

theorem fromLE_toLE_4 {n : Nat} (h : n < 2 ^ 32) :
    fromLEBytes (toLEBytes 4 n) = n := by
  have e : (256 : Nat) ^ 4 = 2 ^ 32 := by norm_num
  exact fromLE_toLE_of_lt (by rw [e]; exact h)

theorem fromLE_toLE_8 {n : Nat} (h : n < 2 ^ 64) :
    fromLEBytes (toLEBytes 8 n) = n := by
  have e : (256 : Nat) ^ 8 = 2 ^ 64 := by norm_num
  exact fromLE_toLE_of_lt (by rw [e]; exact h)

/-- Claim C5: for every fixed-width numeric value (`u32`, `u64`, `i32`,
`i64`, `f32`, `f64`), `to_bytes` always succeeds and returns exactly the
little-endian byte representation of the value, with width 4 bytes for the
32-bit types and 8 bytes for the 64-bit types: the result is `Ok`, has the
exact width, and little-endian decoding of the bytes recovers the value
(the two's-complement bit pattern for the signed types, which two's-complement
reading maps back to the value; the IEEE bit pattern for the floats). -/
theorem toBytes_scalar_little_endian (a b e f : Nat) (c d : Int)
    (ha : a < 2 ^ 32) (hb : b < 2 ^ 64)
    (hc1 : -(2 ^ 31) ≤ c) (hc2 : c < 2 ^ 31)
    (hd1 : -(2 ^ 63) ≤ d) (hd2 : d < 2 ^ 63)
    (he : e < 2 ^ 32) (hf : f < 2 ^ 64) :
    (toBytes (.u32 a) = .ok (toLEBytes 4 a) ∧ (toLEBytes 4 a).length = 4 ∧
      fromLEBytes (toLEBytes 4 a) = a) ∧
    (toBytes (.u64 b) = .ok (toLEBytes 8 b) ∧ (toLEBytes 8 b).length = 8 ∧
      fromLEBytes (toLEBytes 8 b) = b) ∧
    (toBytes (.i32 c) = .ok (toLEBytes 4 (c % (2 ^ 32 : Int)).toNat) ∧
      (toLEBytes 4 (c % (2 ^ 32 : Int)).toNat).length = 4 ∧
      fromTwos 32 (fromLEBytes (toLEBytes 4 (c % (2 ^ 32 : Int)).toNat)) = c) ∧
    (toBytes (.i64 d) = .ok (toLEBytes 8 (d % (2 ^ 64 : Int)).toNat) ∧
      (toLEBytes 8 (d % (2 ^ 64 : Int)).toNat).length = 8 ∧
      fromTwos 64 (fromLEBytes (toLEBytes 8 (d % (2 ^ 64 : Int)).toNat)) = d) ∧
    (toBytes (.f32 e) = .ok (toLEBytes 4 e) ∧ (toLEBytes 4 e).length = 4 ∧
      fromLEBytes (toLEBytes 4 e) = e) ∧
    (toBytes (.f64 f) = .ok (toLEBytes 8 f) ∧ (toLEBytes 8 f).length = 8 ∧
      fromLEBytes (toLEBytes 8 f) = f) := by
  refine ⟨⟨?_, toLEBytes_length 4 a, fromLE_toLE_4 ha⟩,
    ⟨?_, toLEBytes_length 8 b, fromLE_toLE_8 hb⟩,
    ⟨rfl, toLEBytes_length 4 _, ?_⟩, ⟨rfl, toLEBytes_length 8 _, ?_⟩,
    ⟨?_, toLEBytes_length 4 e, fromLE_toLE_4 he⟩,
    ⟨?_, toLEBytes_length 8 f, fromLE_toLE_8 hf⟩⟩
  · show Except.ok (toLEBytes 4 (a % 2 ^ 32)) = Except.ok (toLEBytes 4 a)
    rw [Nat.mod_eq_of_lt ha]
  · show Except.ok (toLEBytes 8 (b % 2 ^ 64)) = Except.ok (toLEBytes 8 b)
    rw [Nat.mod_eq_of_lt hb]
  · rw [fromLE_toLE_4 (emod_toNat_lt_32 c)]
    exact fromTwos_32 c hc1 hc2
  · rw [fromLE_toLE_8 (emod_toNat_lt_64 d)]
    exact fromTwos_64 d hd1 hd2
  · show Except.ok (toLEBytes 4 (e % 2 ^ 32)) = Except.ok (toLEBytes 4 e)
    rw [Nat.mod_eq_of_lt he]
  · show Except.ok (toLEBytes 8 (f % 2 ^ 64)) = Except.ok (toLEBytes 8 f)
    rw [Nat.mod_eq_of_lt hf]

/-- Claim C5 witness: the scalar encodings at concrete values. -/
theorem toBytes_scalar_little_endian_wit :
    (toBytes (.u32 5) = .ok (toLEBytes 4 5) ∧ (toLEBytes 4 5).length = 4 ∧
      fromLEBytes (toLEBytes 4 5) = 5) ∧
    (toBytes (.u64 6) = .ok (toLEBytes 8 6) ∧ (toLEBytes 8 6).length = 8 ∧
      fromLEBytes (toLEBytes 8 6) = 6) ∧
    (toBytes (.i32 (-2)) = .ok (toLEBytes 4 ((-2 : Int) % (2 ^ 32 : Int)).toNat) ∧
      (toLEBytes 4 ((-2 : Int) % (2 ^ 32 : Int)).toNat).length = 4 ∧
      fromTwos 32 (fromLEBytes (toLEBytes 4 ((-2 : Int) % (2 ^ 32 : Int)).toNat)) = -2) ∧
    (toBytes (.i64 (-3)) = .ok (toLEBytes 8 ((-3 : Int) % (2 ^ 64 : Int)).toNat) ∧
      (toLEBytes 8 ((-3 : Int) % (2 ^ 64 : Int)).toNat).length = 8 ∧
      fromTwos 64 (fromLEBytes (toLEBytes 8 ((-3 : Int) % (2 ^ 64 : Int)).toNat)) = -3) ∧
    (toBytes (.f32 7) = .ok (toLEBytes 4 7) ∧ (toLEBytes 4 7).length = 4 ∧
      fromLEBytes (toLEBytes 4 7) = 7) ∧
    (toBytes (.f64 8) = .ok (toLEBytes 8 8) ∧ (toLEBytes 8 8).length = 8 ∧
      fromLEBytes (toLEBytes 8 8) = 8) :=
  toBytes_scalar_little_endian 5 6 7 8 (-2) (-3)
    (by norm_num) (by norm_num) (by norm_num) (by norm_num)
    (by norm_num) (by norm_num) (by norm_num) (by norm_num)

/-- Claim C6: the absent optional encodes to the empty byte sequence and the
present optional `Some(x)` encodes to exactly the bytes of `x` itself; the
unit value encodes to zero bytes; raw byte sequences and text encode as
their own bytes unchanged. -/
theorem toBytes_option_unit_bytes_text :
    toBytes .optNone = .ok [] ∧
    (∀ v : Value, toBytes (.optSome v) = toBytes v) ∧
    toBytes .unit = .ok [] ∧
    (∀ bs : List Nat, toBytes (.bytes bs) = .ok bs) ∧
    (∀ s : String, toBytes (.text s) = .ok (utf8Bytes s)) :=
  ⟨rfl, fun _ => rfl, rfl, fun _ => rfl, fun _ => rfl⟩

/-- Claim C7: encoding then decoding recovers the original value for each
scalar type and for the optional type in both the absent and the present
case, for any decoder that the present case delegates to. -/
theorem roundtrip_scalars_option (a b e f : Nat) (c d : Int) {α : Type}
    (dec : List Nat → Except Error α) (x : α) (v : Value) (enc : List Nat)
    (ha : a < 2 ^ 32) (hb : b < 2 ^ 64)
    (hc1 : -(2 ^ 31) ≤ c) (hc2 : c < 2 ^ 31)
    (hd1 : -(2 ^ 63) ≤ d) (hd2 : d < 2 ^ 63)
    (he : e < 2 ^ 32) (hf : f < 2 ^ 64)
    (hv : toBytes v = .ok enc) (hne : enc ≠ []) (hdec : dec enc = .ok x) :
    (toBytes (.u32 a)).bind fromBytesU32 = .ok a ∧
    (toBytes (.u64 b)).bind fromBytesU64 = .ok b ∧
    (toBytes (.i32 c)).bind fromBytesI32 = .ok c ∧
    (toBytes (.i64 d)).bind fromBytesI64 = .ok d ∧
    (toBytes (.f32 e)).bind fromBytesF32 = .ok e ∧
    (toBytes (.f64 f)).bind fromBytesF64 = .ok f ∧
    (toBytes .optNone).bind (fromBytesOpt dec) = .ok none ∧
    (toBytes (.optSome v)).bind (fromBytesOpt dec) = .ok (some x) := by
  refine ⟨?_, ?_, ?_, ?_, ?_, ?_, rfl, ?_⟩
  · show fromBytesU32 (toLEBytes 4 (a % 2 ^ 32)) = .ok a
    rw [Nat.mod_eq_of_lt ha]
    unfold fromBytesU32
    rw [if_pos (toLEBytes_length 4 a), fromLE_toLE_4 ha]
  · show fromBytesU64 (toLEBytes 8 (b % 2 ^ 64)) = .ok b
    rw [Nat.mod_eq_of_lt hb]
    unfold fromBytesU64
    rw [if_pos (toLEBytes_length 8 b), fromLE_toLE_8 hb]
  · show fromBytesI32 (toLEBytes 4 (c % (2 ^ 32 : Int)).toNat) = .ok c
    unfold fromBytesI32
    rw [if_pos (toLEBytes_length 4 _), fromLE_toLE_4 (emod_toNat_lt_32 c),
      fromTwos_32 c hc1 hc2]
  · show fromBytesI64 (toLEBytes 8 (d % (2 ^ 64 : Int)).toNat) = .ok d
    unfold fromBytesI64
    rw [if_pos (toLEBytes_length 8 _), fromLE_toLE_8 (emod_toNat_lt_64 d),
      fromTwos_64 d hd1 hd2]
  · show fromBytesF32 (toLEBytes 4 (e % 2 ^ 32)) = .ok e
    rw [Nat.mod_eq_of_lt he]
    unfold fromBytesF32
    rw [if_pos (toLEBytes_length 4 e), fromLE_toLE_4 he]
  · show fromBytesF64 (toLEBytes 8 (f % 2 ^ 64)) = .ok f
    rw [Nat.mod_eq_of_lt hf]
    unfold fromBytesF64
    rw [if_pos (toLEBytes_length 8 f), fromLE_toLE_8 hf]
  · show (toBytes v).bind (fromBytesOpt dec) = .ok (some x)
    rw [hv]
    show fromBytesOpt dec enc = .ok (some x)
    cases enc with
    | nil => exact absurd rfl hne
    | cons y ys => simp [fromBytesOpt, hdec, Except.map]

/-- Claim C7 witness: the round trips at concrete values, the present
optional carrying a `u32`. -/
theorem roundtrip_scalars_option_wit :
    (toBytes (.u32 5) |>.bind fromBytesU32) = .ok 5 ∧
    (toBytes (.u64 6) |>.bind fromBytesU64) = .ok 6 ∧
    (toBytes (.i32 (-2)) |>.bind fromBytesI32) = .ok (-2) ∧
    (toBytes (.i64 (-3)) |>.bind fromBytesI64) = .ok (-3) ∧
    (toBytes (.f32 7) |>.bind fromBytesF32) = .ok 7 ∧
    (toBytes (.f64 8) |>.bind fromBytesF64) = .ok 8 ∧
    (toBytes .optNone |>.bind (fromBytesOpt fromBytesU32)) = .ok none ∧
    (toBytes (.optSome (.u32 5)) |>.bind (fromBytesOpt fromBytesU32)) = .ok (some 5) :=
  roundtrip_scalars_option 5 6 7 8 (-2) (-3) fromBytesU32 5 (.u32 5) (toLEBytes 4 5)
    (by norm_num) (by norm_num) (by norm_num) (by norm_num)
    (by norm_num) (by norm_num) (by norm_num) (by norm_num)
    rfl (by decide) rfl

/-- Claim C8: the encoder is stateless and deterministic — over any run
(a sequence of calls), the result of encoding a value is `toBytes` of that
value alone, independent of the calls around it, and runs compose by
concatenation. -/
theorem toBytes_stateless_deterministic :
    (∀ (vs ws : List Value) (v : Value),
      encodeAll (vs ++ v :: ws) = encodeAll vs ++ toBytes v :: encodeAll ws) ∧
    (∀ (vs ws : List Value), encodeAll (vs ++ ws) = encodeAll vs ++ encodeAll ws) ∧
    (∀ (v : Value) (vs : List Value), encodeAll (v :: vs) = toBytes v :: encodeAll vs) :=
  ⟨fun vs ws v => by simp [encodeAll], fun vs ws => by simp [encodeAll],
   fun v vs => rfl⟩

/-- Claim C9: every specialized `to_vec` override agrees with the trait's
default definition `to_bytes().as_ref().to_vec()` on every value. -/
theorem toVec_agrees_with_default (v : Value) : toVec v = toVecDefault v := by
  induction v with
  | optSome w ih =>
    show toVec w = toVecDefault (.optSome w)
    rw [ih]
    show (toBytes w).map (fun bs => bs) = (toBytes (.optSome w)).map (fun bs => bs)
    rfl
  | optNone => show Except.ok [] = (toBytes Value.optNone).map (fun bs => bs); rfl
  | bytes bs => show Except.ok bs = (toBytes (.bytes bs)).map (fun bs => bs); rfl
  | unit => rfl
  | text s => rfl
  | u32 n => rfl
  | u64 n => rfl
  | i32 n => rfl
  | i64 n => rfl
  | f32 n => rfl
  | f64 n => rfl

/-- Claim C10: the optional encoding is not injective — `Some` of any value
whose own encoding is empty (the empty byte vector, a nested `None`, the
unit value) and `None` are distinct values with the same (empty) encoding. -/
theorem option_encoding_not_injective :
    toBytes (.optSome (.bytes [])) = .ok [] ∧ toBytes .optNone = .ok [] ∧
    Value.optSome (.bytes []) ≠ Value.optNone ∧
    toBytes (.optSome .optNone) = .ok [] ∧
    Value.optSome .optNone ≠ Value.optNone ∧
    toBytes (.optSome .unit) = .ok [] ∧
    Value.optSome .unit ≠ Value.optNone :=
  ⟨rfl, rfl, by decide, rfl, by decide, rfl, by decide⟩

theorem setSlot_self (s : PoolState) (key : String) (slot : KeySlot) :
    (setSlot s key slot).slots key = some slot := by
  simp [setSlot]

theorem setSlot_ne (s : PoolState) (key : String) (slot : KeySlot) (k : String)
    (h : k ≠ key) : (setSlot s key slot).slots k = s.slots k := by
  simp [setSlot, h]

theorem step_slotInv {m : Nat} {s : PoolState} {k : String} {op : Op}
    (hop : op ≠ .addBuilder k) (h : SlotInv m (s.slots k)) :
    SlotInv m ((step s op).slots k) := by
  obtain ⟨slot, hs, hm, hal, hlm⟩ := h
  cases op with
  | count k' => exact ⟨slot, hs, hm, hal, hlm⟩
  | addBuilder k' =>
    have hk : k ≠ k' := fun e => hop (by rw [e])
    show SlotInv m ((s.addBuilder k').slots k)
    unfold PoolState.addBuilder
    split
    · rw [setSlot_ne s k' _ k hk]
      exact ⟨slot, hs, hm, hal, hlm⟩
    · rw [setSlot_ne s k' _ k hk]
      exact ⟨slot, hs, hm, hal, hlm⟩
  | release k' =>
    show SlotInv m ((s.release k').slots k)
    unfold PoolState.release
    split
    · exact ⟨slot, hs, hm, hal, hlm⟩
    · rename_i slot' heq
      split_ifs with h1
      · by_cases hkk : k = k'
        · subst hkk
          rw [hs] at heq
          injection heq with heq'
          subst heq'
          exact ⟨_, setSlot_self s k _, hm,
            by show slot.available + 1 ≤ slot.liveCount; omega, hlm⟩
        · rw [setSlot_ne s k' _ k hkk]
          exact ⟨slot, hs, hm, hal, hlm⟩
      · exact ⟨slot, hs, hm, hal, hlm⟩
  | acquire k' fok =>
    show SlotInv m (((s.acquire k' fok).2).slots k)
    unfold PoolState.acquire
    split
    · exact ⟨slot, hs, hm, hal, hlm⟩
    · rename_i slot' heq
      split_ifs with h1 h2 h3
      · by_cases hkk : k = k'
        · subst hkk
          rw [hs] at heq
          injection heq with heq'
          subst heq'
          exact ⟨_, setSlot_self s k _, hm,
            by show slot.available - 1 ≤ slot.liveCount; omega, hlm⟩
        · show SlotInv m ((setSlot s k' _).slots k)
          rw [setSlot_ne s k' _ k hkk]
          exact ⟨slot, hs, hm, hal, hlm⟩
      · by_cases hkk : k = k'
        · subst hkk
          rw [hs] at heq
          injection heq with heq'
          subst heq'
          exact ⟨_, setSlot_self s k _, hm,
            by show slot.available ≤ slot.liveCount + 1; omega,
            by show slot.liveCount + 1 ≤ m; omega⟩
        · show SlotInv m ((setSlot s k' _).slots k)
          rw [setSlot_ne s k' _ k hkk]
          exact ⟨slot, hs, hm, hal, hlm⟩
      · exact ⟨slot, hs, hm, hal, hlm⟩
      · exact ⟨slot, hs, hm, hal, hlm⟩

theorem run_slotInv {m : Nat} {k : String} :
    ∀ (ops : List Op) (s : PoolState), (∀ op ∈ ops, op ≠ Op.addBuilder k) →
      SlotInv m (s.slots k) → SlotInv m ((run s ops).slots k)
  | [], _, _, h => h
  | op :: ops, s, hops, h =>
    run_slotInv ops (step s op) (fun o ho => hops o (List.mem_cons_of_mem op ho))
      (step_slotInv (hops op (List.mem_cons_self op ops)) h)

theorem init_slotInv (b : PoolBuilder) (m : Nat) (k : String) :
    SlotInv m ((((b.withMaxInstances m).build).addBuilder k).slots k) := by
  refine ⟨⟨m, 0, 0⟩, ?_, rfl, Nat.le_refl 0, Nat.zero_le m⟩
  show (setSlot ((b.withMaxInstances m).build) k
    { maxInstances := m, available := 0, liveCount := 0 }).slots k = some ⟨m, 0, 0⟩
  exact setSlot_self _ k _

/-- Claim C1: for a key registered while the configured capacity was `m`,
after any history of register (of other keys), acquire, release, and count
operations — in particular the test's 12 interleaved acquisitions — the
key's live-instance count never exceeds `m` and is non-negative. -/
theorem count_never_exceeds_max (b : PoolBuilder) (m : Nat) (k : String)
    (ops : List Op) (hops : ∀ op ∈ ops, op ≠ Op.addBuilder k) :
    PoolState.count (run (((b.withMaxInstances m).build).addBuilder k) ops) k ≤ m ∧
    0 ≤ PoolState.count (run (((b.withMaxInstances m).build).addBuilder k) ops) k := by
  obtain ⟨slot, hsl, hm2, _, hlm⟩ := run_slotInv ops _ hops (init_slotInv b m k)
  constructor
  · simp only [PoolState.count, hsl]
    exact hlm
  · exact Nat.zero_le _

/-- Claim C1 witness: the capacity-3 pool of the test scenario, with the 12
acquisitions and interleaved releases of `ops12`. -/
theorem count_never_exceeds_max_wit :
    PoolState.count
      (run ((((PoolBuilder.mk 1).withMaxInstances 3).build).addBuilder "test") ops12)
      "test" ≤ 3 ∧
    0 ≤ PoolState.count
      (run ((((PoolBuilder.mk 1).withMaxInstances 3).build).addBuilder "test") ops12)
      "test" :=
  count_never_exceeds_max ⟨1⟩ 3 "test" ops12 (by decide)

/-- Claim C2: `acquire` returns a `Result` wrapping an `Option`: when the
slot is at capacity with no idle instance the timed-out caller gets
`Ok(None)` — never the error branch — and the state is untouched; whenever
an instance is obtained (an idle one, or a fresh one created under
capacity) the result is `Ok(Some(handle))`. -/
theorem acquire_timeout_is_ok_none (s : PoolState) (k : String) (slot : KeySlot)
    (fok : Bool) (h : s.slots k = some slot) :
    (slot.available = 0 → slot.maxInstances ≤ slot.liveCount →
      s.acquire k fok = (.ok none, s)) ∧
    (0 < slot.available → (s.acquire k fok).1 = .ok (some ())) ∧
    (slot.available = 0 → slot.liveCount < slot.maxInstances → fok = true →
      (s.acquire k fok).1 = .ok (some ())) := by
  refine ⟨fun h1 h2 => ?_, fun h1 => ?_, fun h1 h2 h3 => ?_⟩
  · simp only [PoolState.acquire, h]
    rw [if_neg (by omega), if_neg (by omega)]
  · simp only [PoolState.acquire, h]
    rw [if_pos h1]
  · simp only [PoolState.acquire, h]
    rw [if_neg (by omega), if_pos h2, if_pos h3]

/-- Claim C2 witness: on `sAtCap` (capacity 1, one instance checked out,
none idle) the timed-out acquisition returns `Ok(None)` and changes
nothing. -/
theorem acquire_timeout_is_ok_none_wit :
    PoolState.acquire sAtCap "k" true = (.ok none, sAtCap) :=
  (acquire_timeout_is_ok_none sAtCap "k" ⟨1, 0, 1⟩ true (by decide)).1 rfl
    (by decide)

/-- Claim C3: acquiring a key that was never registered fails with the
`UnknownKey` error in one step — no instance is created and the state is
returned unchanged (no blocking, no internal retry). -/
theorem acquire_unknown_key_errors (s : PoolState) (k : String) (fok : Bool)
    (h : s.slots k = none) :
    s.acquire k fok = (.error .unknownKey, s) := by
  unfold PoolState.acquire
  rw [h]

/-- Claim C3 witness: acquiring from a freshly built pool with no
registered keys. -/
theorem acquire_unknown_key_errors_wit :
    PoolState.acquire ((PoolBuilder.mk 0).build) "x" true =
      (.error .unknownKey, (PoolBuilder.mk 0).build) :=
  acquire_unknown_key_errors ((PoolBuilder.mk 0).build) "x" true rfl

/-- Claim C4 counterexample: capacity is not supplied at registration — the
identical registration call `add_builder "a"` yields capacity 2 in a pool
built with `with_max_instances(2)` and capacity 5 in a pool built with
`with_max_instances(5)`, and a second key registered in the same pool gets
the same pool-wide capacity. -/
theorem capacity_set_at_construction_cex :
    ((((PoolBuilder.mk 0).withMaxInstances 2).build).addBuilder "a").capacity "a" =
      some 2 ∧
    ((((PoolBuilder.mk 0).withMaxInstances 5).build).addBuilder "a").capacity "a" =
      some 5 ∧
    (((((PoolBuilder.mk 0).withMaxInstances 2).build).addBuilder "a").addBuilder
      "b").capacity "b" = some 2 :=
  ⟨by decide, by decide, by decide⟩

/-- Claim C4 as amended: registration takes no per-key capacity; each
`add_builder(key, factory)` installs a `KeySlot` whose capacity is the
pool-wide `max_instances` chosen at pool construction via
`PoolBuilder::with_max_instances`, and that capacity stays fixed for the
slot under any later history of acquire/release/count and registrations of
other keys. -/
theorem capacity_pool_wide_fixed (b : PoolBuilder) (m : Nat) (k : String)
    (ops : List Op) (hops : ∀ op ∈ ops, op ≠ Op.addBuilder k) :
    (((b.withMaxInstances m).build).addBuilder k).capacity k = some m ∧
    (run (((b.withMaxInstances m).build).addBuilder k) ops).capacity k = some m := by
  obtain ⟨slot0, hsl0, hm0, _, _⟩ := init_slotInv b m k
  obtain ⟨slot, hsl, hm2, _, _⟩ := run_slotInv ops _ hops (init_slotInv b m k)
  constructor
  · simp [PoolState.capacity, hsl0, hm0]
  · simp [PoolState.capacity, hsl, hm2]

/-- Claim C4 amended witness: capacity 2 is installed at registration time
from the builder setting and survives the `ops12` history. -/
theorem capacity_pool_wide_fixed_wit :
    ((((PoolBuilder.mk 0).withMaxInstances 2).build).addBuilder "test").capacity
      "test" = some 2 ∧
    (run ((((PoolBuilder.mk 0).withMaxInstances 2).build).addBuilder "test")
      ops12).capacity "test" = some 2 :=
  capacity_pool_wide_fixed ⟨0⟩ 2 "test" ops12 (by decide)

end Extism
